import Mathlib

/-!
Verification of the cmd-ai execution-loop core (fixter).

Shallow embedding of:
* `fixter/agents/conversation_agent.py` (ConversationAgent)
* `fixter/agents/extraction_agent.py` (ExtractionAgent)
* `fixter/agents/coordinator.py` (Coordinator routing)
* `fixter/session_memory.py` (SessionMemory entity map)

Modelling conventions, applied uniformly:
* Python `str` is Lean `String`; machine-level scanning is done on `List Char`.
* Python regular expressions are modelled by hand-written scanners that follow
  the exact pattern used at each call site (the patterns are all simple:
  literal labels, character classes and lazy bodies with lookahead stops).
  `\w`, `\d`, `\s` and `str.lower()` are modelled over ASCII.
* `json.loads` is an external library capability and is passed in as a
  parameter `jl : String → Option PyVal` (`none` models `json.JSONDecodeError`).
* The LLM and the concrete tools are external collaborators; they are
  modelled as oracle functions of exactly the data the source passes to them.
* The langgraph scheduler is modelled as: each node's returned update is
  applied to the state, the `operator.add` annotation on `intermediate_steps`
  appends the pairs a node returns, and conditional-edge functions share the
  state object, so their in-place assignment to `agent_outcome` is visible
  downstream (this is how `_should_continue` installs the forced apology).
* Python exceptions surfaced by the embedded code are modelled with `Except`.
-/

namespace Fixter

/-! ### Python string primitives -/

/-- Python whitespace for `str.strip()` and the regex class `\s`
(space, tab, newline, carriage return, vertical tab, form feed). -/
def pyIsSpace (c : Char) : Bool :=
  c = ' ' || c = '\t' || c = '\n' || c = '\r' || c = '\x0b' || c = '\x0c'

/-- Strip a character list on both ends by a predicate. -/
def stripListBy (p : Char → Bool) (l : List Char) : List Char :=
  ((l.dropWhile p).reverse.dropWhile p).reverse

/-- Python `str.strip()` (no arguments): strip whitespace on both ends. -/
def pyStrip (s : String) : String :=
  String.mk (stripListBy pyIsSpace s.data)

/-- Python `str.strip('"\'')`: strip double and single quotes on both ends. -/
def pyStripQuotes (s : String) : String :=
  String.mk (stripListBy (fun c => c = '"' || c = '\'') s.data)

/-- Python `str.lower()` (ASCII model). -/
def pyLower (s : String) : String :=
  String.mk (s.data.map Char.toLower)

/-- Does `pat` occur as a prefix of `l`? -/
def hasPrefixL : List Char → List Char → Bool
  | [], _ => true
  | _ :: _, [] => false
  | p :: ps, c :: cs => p = c && hasPrefixL ps cs

/-- Does `pat` occur as a substring (Python `pat in s` / `re.search` on a literal)? -/
def containsSubL (pat : List Char) : List Char → Bool
  | [] => hasPrefixL pat []
  | c :: cs => hasPrefixL pat (c :: cs) || containsSubL pat cs

/-- Literal-substring search on strings. -/
def containsSub (pat s : String) : Bool :=
  containsSubL pat.data s.data

/-- The suffix after the first occurrence of `sep`, if any. -/
def afterFirstSep (sep : List Char) : List Char → Option (List Char)
  | [] => none
  | c :: cs =>
    if hasPrefixL sep (c :: cs) then some ((c :: cs).drop sep.length)
    else afterFirstSep sep cs

/-- Scanner for the suffix after the last non-overlapping occurrence of a
(nonempty) separator, fuelled by the list length. -/
def splitTailAux (sep : List Char) : Nat → List Char → List Char
  | 0, l => l
  | fuel + 1, l =>
    match afterFirstSep sep l with
    | none => l
    | some rest => splitTailAux sep fuel rest

/-- The suffix after the last non-overlapping occurrence of `sep`
(left-to-right segmentation, as Python `str.split`). -/
def splitTail (sep l : List Char) : List Char :=
  splitTailAux sep l.length l

/-- Python `s.split(sep)[-1]`: the text after the last occurrence of `sep`
(or all of `s` when `sep` does not occur). -/
def splitLastOn (sep : String) (s : String) : String :=
  String.mk (splitTail sep.data s.data)

/-- Digits to a natural number (the capture of a `\d+` group). -/
def digitsToNat (l : List Char) : Nat :=
  l.foldl (fun acc c => acc * 10 + (c.toNat - '0'.toNat)) 0

/-- Python `int(str)` for base 10: strip whitespace, optional sign, then a
nonempty digit run (numeric-literal underscores are not modelled; no call
site depends on them).  `none` models `ValueError`. -/
def pyIntOfString (s : String) : Option Int :=
  let l := stripListBy pyIsSpace s.data
  let core : List Char → Option Nat := fun ds =>
    if ds ≠ [] && ds.all Char.isDigit then some (digitsToNat ds) else none
  match l with
  | '+' :: ds => (core ds).map Int.ofNat
  | '-' :: ds => (core ds).map (fun n => -(n : Int))
  | ds => (core ds).map Int.ofNat

/-- First `n` characters (Python slicing `s[:n]`). -/
def strTake (n : Nat) (s : String) : String :=
  String.mk (s.data.take n)

/-! ### Scanners for the concrete regular expressions in the source -/

/-- `re.search(r'limit\s*=\s*(\d+)', s)`: first `limit` token followed by
`=` with optional whitespace and a digit run; returns the captured number. -/
def limitSearch : List Char → Option Nat
  | [] => none
  | c :: cs =>
    if hasPrefixL "limit".data (c :: cs) then
      match (((c :: cs).drop 5).dropWhile pyIsSpace) with
      | '=' :: r2 =>
        let ds := (r2.dropWhile pyIsSpace).takeWhile Char.isDigit
        if ds = [] then limitSearch cs else some (digitsToNat ds)
      | _ => limitSearch cs
    else limitSearch cs

/-- `re.search(r'entity_type\s*=\s*["\']?([a-zA-Z_]+)["\']?', s)`:
captured word after an `entity_type =` token, optionally quoted. -/
def entityTypeSearch : List Char → Option String
  | [] => none
  | c :: cs =>
    if hasPrefixL "entity_type".data (c :: cs) then
      match (((c :: cs).drop 11).dropWhile pyIsSpace) with
      | '=' :: r2 =>
        let r3 := r2.dropWhile pyIsSpace
        let r4 := match r3 with
          | q :: rest => if q = '"' || q = '\'' then rest else r3
          | [] => r3
        let w := r4.takeWhile (fun c => c.isAlpha || c = '_')
        if w = [] then entityTypeSearch cs else some (String.mk w)
      | _ => entityTypeSearch cs
    else entityTypeSearch cs

/-- Character class `[\w/\.-]` of the local-path pattern (ASCII `\w`). -/
def isLocalPathChar (c : Char) : Bool :=
  c.isAlphanum || c = '_' || c = '/' || c = '.' || c = '-'

/-- `re.search(r'/[\w/\.-]+', s)`: first `/` followed by a nonempty maximal
run of path characters. -/
def firstLocalPath : List Char → Option String
  | [] => none
  | c :: cs =>
    if c = '/' then
      let run := cs.takeWhile isLocalPathChar
      if run = [] then firstLocalPath cs else some (String.mk (c :: run))
    else firstLocalPath cs

/-- Scanner for `re.findall(r'\.[a-zA-Z]+', s)`.  The fuel argument (always
instantiated with the list length, which bounds the number of scanning
steps) keeps the recursion structural so that proofs can evaluate it. -/
def findExtTokensAux : Nat → List Char → List String
  | 0, _ => []
  | _ + 1, [] => []
  | fuel + 1, c :: cs =>
    if c = '.' then
      let run := cs.takeWhile Char.isAlpha
      if run = [] then findExtTokensAux fuel cs
      else String.mk (c :: run) :: findExtTokensAux fuel (cs.drop run.length)
    else findExtTokensAux fuel cs

/-- `re.findall(r'\.[a-zA-Z]+', s)`: all non-overlapping dot-plus-letters
tokens, left to right, each with a maximal letter run. -/
def findExtTokens (l : List Char) : List String :=
  findExtTokensAux l.length l

/-- `re.search(r'https?://[^\s]+', s)`: first `http://` or `https://` token
followed by a nonempty maximal run of non-whitespace characters. -/
def firstHttpUrl : List Char → Option String
  | [] => none
  | c :: cs =>
    let l := c :: cs
    if hasPrefixL "https://".data l then
      let run := (l.drop 8).takeWhile (fun c => !pyIsSpace c)
      if run = [] then firstHttpUrl cs else some (String.mk ("https://".data ++ run))
    else if hasPrefixL "http://".data l then
      let run := (l.drop 7).takeWhile (fun c => !pyIsSpace c)
      if run = [] then firstHttpUrl cs else some (String.mk ("http://".data ++ run))
    else firstHttpUrl cs

/-! ### Malformed-output recovery (`_reason_node` except-branches)

`ConversationAgent._reason_node` recovers from `OutputParserException` with a
cascade: extract a `Final Answer:` segment, else strip step-structure labels
with four `re.sub` calls, and substitute a fixed apology when nothing
non-whitespace remains.  `ExtractionAgent._reason_node` merely splits off the
`Could not parse LLM output:` prefix and strips. -/

/-- The lookahead `(?=stop₁|stop₂|…|$)` of the label-stripping `re.sub`
patterns: drop characters until some stop label starts, or until `$` matches
(end of string, or just before a final newline in non-MULTILINE mode).
Returns the remaining suffix. -/
def dropUntilStop (stops : List String) : List Char → List Char
  | [] => []
  | c :: cs =>
    if stops.any (fun st => hasPrefixL st.data (c :: cs)) then c :: cs
    else if cs = [] && c = '\n' then c :: cs
    else dropUntilStop stops cs

theorem dropUntilStop_length_le (stops : List String) :
    ∀ l : List Char, (dropUntilStop stops l).length ≤ l.length := by
  intro l
  induction l with
  | nil => simp [dropUntilStop]
  | cons c cs ih =>
    simp only [dropUntilStop]
    split
    · exact Nat.le_refl _
    · split
      · exact Nat.le_refl _
      · exact Nat.le_trans ih (Nat.le_succ _)

/-- Scanner for one `re.sub` pass, fuelled by the list length (each
scanning step strictly shortens the remaining text, so the fuel never runs
out; keeping the recursion structural lets proofs evaluate it). -/
def subLabelAux (label : String) (stops : List String) :
    Nat → List Char → List Char
  | 0, l => l
  | _ + 1, [] => []
  | fuel + 1, c :: cs =>
    if hasPrefixL label.data (c :: cs) then
      subLabelAux label stops fuel
        (dropUntilStop stops (cs.drop (label.data.length - 1)))
    else c :: subLabelAux label stops fuel cs

/-- `re.sub(label + '.*?(?=' + stops + '|$)', '', s, flags=re.DOTALL)`:
remove every non-overlapping match of `label` followed by a lazy body that
ends at the earliest stop-label position or at `$`. -/
def subLabel (label : String) (stops : List String) (l : List Char) :
    List Char :=
  subLabelAux label stops l.length l

/-- The four `re.sub` calls of the else-branch of
`ConversationAgent._reason_node`, in source order. -/
def stripStructureLabels (l : List Char) : List Char :=
  subLabel "Observation:" ["Thought:", "Action:", "Final Answer:"]
    (subLabel "Action Input:" ["Observation:", "Final Answer:"]
      (subLabel "Action:" ["Observation:", "Final Answer:"]
        (subLabel "Thought:" ["Action:", "Observation:", "Final Answer:"] l)))

/-- `re.search(r'Final Answer:\s*(.*?)(?:\n|$)', s, re.DOTALL)`: text after
the first `Final Answer:` label, skipping the greedy `\s*` run, up to the
first newline or the end of the string (the captured group). -/
def finalAnswerCapture : List Char → Option (List Char)
  | [] => none
  | c :: cs =>
    if hasPrefixL "Final Answer:".data (c :: cs) then
      some ((((c :: cs).drop 13).dropWhile pyIsSpace).takeWhile (fun c => c ≠ '\n'))
    else finalAnswerCapture cs

/-- Does the text contain any of the four step-structure labels
(`re.search(r'(Thought:|Action:|Action Input:|Observation:)', s)`)? -/
def hasStructureLabel (s : String) : Bool :=
  containsSub "Thought:" s || containsSub "Action:" s ||
    containsSub "Action Input:" s || containsSub "Observation:" s

/-- Fixed apology substituted by the conversation loop when recovery leaves
nothing non-whitespace. -/
def convRecoveryApology : String :=
  "I apologize, but I couldn't process that correctly. Please try asking in a different way."

/-- `ConversationAgent._reason_node` except-branch: the recovered final
answer text built from the exception text. -/
def convRecoverText (errorText : String) : String :=
  let output0 := pyStrip (splitLastOn "Could not parse LLM output:" errorText)
  let output1 :=
    match finalAnswerCapture output0.data with
    | some g => String.mk (stripListBy pyIsSpace g)
    | none =>
      if hasStructureLabel output0 then String.mk (stripStructureLabels output0.data)
      else output0
  if pyStrip output1 = "" then convRecoveryApology else output1

/-- `ExtractionAgent._reason_node` except-branch: the raw exception text
after the parser-error prefix, stripped, used verbatim. -/
def extRecoverText (errorText : String) : String :=
  pyStrip (splitLastOn "Could not parse LLM output:" errorText)

/-! ### Python values and the input normalizers (`_parse_tool_input`) -/

/-- Untyped Python values as they flow through tool inputs: what
`json.loads` can produce, plus `None`. -/
inductive PyVal where
  | str (s : String)
  | int (n : Int)
  | bool (b : Bool)
  | none
  | list (xs : List PyVal)
  | dict (fs : List (String × PyVal))

/-- Python dict lookup (`d.get(k)` without default). -/
def dictGet (fs : List (String × PyVal)) (k : String) : Option PyVal :=
  (fs.find? (fun p => p.1 = k)).map (fun p => p.2)

/-- Python `d.get(k, default)`. -/
def pyGetD (fs : List (String × PyVal)) (k : String) (d : PyVal) : PyVal :=
  (dictGet fs k).getD d

/-- Python `d.setdefault(k, v)`: keep the dict if the key is present,
otherwise append the pair (insertion order preserved). -/
def setDefault (fs : List (String × PyVal)) (k : String) (v : PyVal) :
    List (String × PyVal) :=
  if (dictGet fs k).isSome then fs else fs ++ [(k, v)]

/-- Python truthiness, for `a or b`. -/
def pyTruthy : PyVal → Bool
  | .none => false
  | .bool b => b
  | .int n => n ≠ 0
  | .str s => s ≠ ""
  | .list xs => !xs.isEmpty
  | .dict fs => !fs.isEmpty

/-- Python `a or b`. -/
def pyOr (a b : PyVal) : PyVal :=
  if pyTruthy a then a else b

/-- Python exceptions that the normalizers can raise. -/
inductive PErr where
  | attributeError
  | nameError
deriving DecidableEq

/-- `ExtractionAgent._parse_local_input`. -/
def parseLocalInput (s : String) : PyVal :=
  let directory :=
    match firstLocalPath s.data with
    | some d => d
    | Option.none => pyStrip s
  let exts := findExtTokens s.data
  let extensions := if exts = [] then [".py"] else exts
  .dict [("directory", .str directory),
         ("extensions", .list (extensions.map .str))]

/-- `ExtractionAgent._parse_git_input`. -/
def parseGitInput (s : String) : PyVal :=
  let gitUrl :=
    match firstHttpUrl s.data with
    | some u => u
    | Option.none => pyStrip s
  let extensions := findExtTokens s.data
  .dict [("git_url", .str gitUrl),
         ("extensions", .list (extensions.map .str))]

/-- `ExtractionAgent._parse_tool_input`.  A dict is returned immediately and
unchanged; a string is JSON-decoded or heuristically parsed and then gets
the per-tool `setdefault` treatment; any other input leaves the local
variable `parsed_input` unbound, which raises `NameError` (and a string that
JSON-decodes to a non-dict raises `AttributeError` at `setdefault`). -/
def extParseToolInput (jl : String → Option PyVal) (toolName : String)
    (toolInput : PyVal) : Except PErr PyVal :=
  match toolInput with
  | .dict fs => .ok (.dict fs)
  | .str s =>
    let parsed : PyVal :=
      match jl s with
      | some v => v
      | Option.none =>
        if toolName = "extract_content_local" then parseLocalInput s
        else if toolName = "extract_git_content" then parseGitInput s
        else .dict [("input", .str s)]
    if toolName = "extract_content_local" then
      match parsed with
      | .dict fs =>
        .ok (.dict (setDefault (setDefault fs "extensions" (.list [.str ".py"]))
              "clipboard_only" (.bool false)))
      | _ => .error .attributeError
    else if toolName = "extract_git_content" then
      match parsed with
      | .dict fs =>
        .ok (.dict (setDefault (setDefault (setDefault fs "extensions" (.list []))
              "clone" (.bool false)) "clipboard_only" (.bool true)))
      | _ => .error .attributeError
    else .ok parsed
  | _ => .error .nameError

/-- The structured-input dispatch at the bottom of
`ConversationAgent._parse_tool_input` (runs on dict inputs and on JSON-decoded
string inputs).  For the four recognized tools it rebuilds a fresh dict with
only that tool's keys; `.get`/`.strip` on values of the wrong shape raise
`AttributeError`. -/
def convDispatch (toolName : String) (v : PyVal) : Except PErr PyVal :=
  if toolName = "get_system_time" then
    match v with
    | .dict fs =>
      match pyGetD fs "format" (.str "%Y-%m-%d %H:%M:%S") with
      | .str s => .ok (.dict [("format", .str (pyStripQuotes (pyStrip s)))])
      | _ => .error .attributeError
    | _ => .error .attributeError
  else if toolName = "tavily_search_results_json" then
    match v with
    | .dict fs =>
      match pyOr (pyGetD fs "query" .none) (pyGetD fs "input" .none) with
      | .str s => .ok (.dict [("query", .str (pyStripQuotes (pyStrip s)))])
      | _ => .error .attributeError
    | _ => .error .attributeError
  else if toolName = "get_conversation_history" then
    match v with
    | .int n => .ok (.dict [("limit", .int n)])
    | .bool b => .ok (.dict [("limit", .bool b)])
    | .dict fs => .ok (.dict [("limit", pyGetD fs "limit" (.int 5))])
    | _ => .error .attributeError
  else if toolName = "get_memory_entities" then
    match v with
    | .dict fs =>
      .ok (.dict [("entity_type", pyGetD fs "entity_type" (.str "")),
                  ("limit", pyGetD fs "limit" (.int 5))])
    | _ => .error .attributeError
  else .ok v

/-- `ConversationAgent._parse_tool_input`.  A string is JSON-decoded (on
success the decoded value falls through to the dispatch) or handled by the
per-tool free-text heuristics, each of which returns a dict; every other
input goes straight to the dispatch. -/
def convParseToolInput (jl : String → Option PyVal) (toolName : String)
    (toolInput : PyVal) : Except PErr PyVal :=
  match toolInput with
  | .str s =>
    match jl s with
    | some v => convDispatch toolName v
    | Option.none =>
      if toolName = "get_system_time" then
        .ok (.dict [("format", .str (pyStripQuotes (pyStrip s)))])
      else if toolName = "tavily_search_results_json" then
        .ok (.dict [("query", .str (pyStripQuotes (pyStrip s)))])
      else if toolName = "get_conversation_history" then
        let limit : Int :=
          match pyIntOfString s with
          | some n => n
          | Option.none =>
            match limitSearch s.data with
            | some n => (n : Int)
            | Option.none => 5
        .ok (.dict [("limit", .int limit)])
      else if toolName = "get_memory_entities" then
        .ok (.dict [("entity_type", .str ((entityTypeSearch s.data).getD "")),
                    ("limit", .int (((limitSearch s.data).getD 5 : Nat) : Int))])
      else .ok (.dict [("input", .str (pyStripQuotes (pyStrip s)))])
  | _ => convDispatch toolName toolInput

/-! ### Routing (`Coordinator`) and the `can_handle` heuristics -/

/-- Search for `b` in the text with no newline before it (the gap of a
`a.*b` pattern without `re.DOTALL`: `.` does not match `\n`). -/
def seekNoNewline (pat : String) : List Char → Bool
  | [] => hasPrefixL pat.data []
  | c :: cs => hasPrefixL pat.data (c :: cs) || (c ≠ '\n' && seekNoNewline pat cs)

/-- `re.search(a + '.*' + b, s)` for literal `a`, `b` (no DOTALL). -/
def dotStarSearch (a b : String) : List Char → Bool
  | [] => false
  | c :: cs =>
    (hasPrefixL a.data (c :: cs) && seekNoNewline b ((c :: cs).drop a.data.length))
      || dotStarSearch a b cs

/-- The ten `extraction_patterns` shared verbatim by
`ConversationAgent.can_handle` and `ExtractionAgent.can_handle`, applied to
the lower-cased query (`extract(ion)?` matches iff the literal `extract`
occurs; `\.git` and `github\.com` are literal searches). -/
def extractionPatternsMatch (query : String) : Bool :=
  let l := (pyLower query).data
  containsSubL "extract".data l || containsSubL "get content".data l ||
    containsSubL "pull files".data l || dotStarSearch "fetch" "content" l ||
    dotStarSearch "get" "files from" l || containsSubL ".git".data l ||
    containsSubL "github.com".data l || containsSubL "repository".data l ||
    containsSubL "folder".data l || containsSubL "directory".data l

/-- `ExtractionAgent.can_handle`. -/
def extractionCanHandle (query : String) : ℚ :=
  if extractionPatternsMatch query then 0.8 else 0.2

/-- `ConversationAgent.can_handle`. -/
def conversationCanHandle (query : String) : ℚ :=
  if extractionPatternsMatch query then 0.3 else 0.7

/-- `Coordinator._fallback_routing`: higher `can_handle` score wins, ties go
to conversation (strict `>`). -/
def fallbackRouting (query : String) : String :=
  if conversationCanHandle query < extractionCanHandle query then "extraction"
  else "conversation"

/-- `Coordinator._classify_query`.  The LLM call is external: `.ok resp`
models a successful call returning `resp`; `.error ()` models any exception
inside the `try` block. -/
def classifyQuery (llmResult : Except Unit String) (query : String) : String :=
  match llmResult with
  | .error _ => fallbackRouting query
  | .ok resp =>
    let classification := pyLower (pyStrip resp)
    if classification = "extraction" || classification = "conversation" then
      classification
    else "conversation"

/-! ### Session entity map (`SessionMemory.add_entity`) -/

/-- `EntityInfo` (timestamps are modelled as abstract naturals supplied by
the caller in place of `time.time()`). -/
structure EntityInfo where
  type : String
  value : String
  lastMentioned : Nat
  metadata : PyVal

/-- Python dict assignment `d[k] = v`: replace in place if the key exists,
else append. -/
def dictAssign (es : List (String × EntityInfo)) (k : String) (v : EntityInfo) :
    List (String × EntityInfo) :=
  if es.any (fun p => p.1 = k) then
    es.map (fun p => if p.1 = k then (k, v) else p)
  else es ++ [(k, v)]

/-- The key `f"{entity_type}:{value}"` used by `SessionMemory.add_entity`. -/
def entityKey (entityType value : String) : String :=
  entityType ++ ":" ++ value

/-- `SessionMemory.add_entity` restricted to its effect on the `entities`
dict (`update_access_time` touches only timestamps). -/
def addEntity (es : List (String × EntityInfo)) (entityType value : String)
    (now : Nat) (metadata : PyVal) : List (String × EntityInfo) :=
  dictAssign es (entityKey entityType value)
    ⟨entityType, value, now, metadata⟩

/-! ### The execution loop state machine

Both agents build the same langgraph shape: entry `reason`, conditional
edges from `reason` via `_should_continue` (to `reflect` for the
conversation agent, to `act` for the extraction agent, or to `finish`),
`act → reason`, `finish → END`.  The conversation agent routes
`reflect → act/finish` via `_post_reflection_router`. -/

/-- `AgentAction`: a pending tool call proposed by the reasoning step. -/
structure AgentAction where
  tool : String
  toolInput : PyVal
  log : String

/-- `state["agent_outcome"]`: `None`, an `AgentAction`, or an
`AgentFinish` (its `return_values["output"]` and `log`). -/
inductive Outcome where
  | unset
  | act (a : AgentAction)
  | finish (output log : String)

/-- Is the outcome an `AgentFinish` (`isinstance(..., AgentFinish)`)? -/
def Outcome.isFinish : Outcome → Bool
  | .finish _ _ => true
  | _ => false

/-- A `reflections` entry (`type` field values `"loop_detection"` and
`"efficiency"`). -/
inductive ReflectionKind where
  | loopDetection
  | efficiency

/-- One record appended to `state["reflections"]`. -/
structure Reflection where
  step : Nat
  kind : ReflectionKind
  content : String

/-- The graph state shared by both agents (`ConversationState` /
`ExtractionState`; the extraction agent simply never touches
`reflections`). -/
structure ExecState where
  input : String
  outcome : Outcome
  steps : List (AgentAction × String)
  counter : Nat
  reflections : List Reflection

/-- What one invocation of the LLM-backed ReAct runnable produces:
a parsed action, a parsed final answer, or an `OutputParserException`
carrying the exception text. -/
inductive ReasonResult where
  | action (a : AgentAction)
  | finish (output log : String)
  | parseFailure (errorText : String)

/-- External collaborators of one run, as pure oracles of exactly the data
the source passes to them.  Prompt templating is string glue around these
arguments and never affects control flow, so the oracles receive the
arguments unformatted. -/
structure Oracles where
  /-- `agent_runnable.invoke({"input": …, "intermediate_steps": …})`. -/
  reason : String → List (AgentAction × String) → ReasonResult
  /-- `llm.invoke` on the loop-detection reflection prompt
  (built from `tool_sequence` and `intermediate_steps[-2:]`). -/
  loopCritique : List String → List (AgentAction × String) → String
  /-- `llm.invoke` on the efficiency reflection prompt
  (built from `current_steps`, `tool_sequence`, `intermediate_steps[-3:]`). -/
  effCritique : Nat → List String → List (AgentAction × String) → String
  /-- `llm.invoke` in `_synthesize_from_tools`
  (built from the query and the truncated `{tool, result}` list). -/
  synth : String → List (String × String) → String
  /-- `str(tool_map[tool_name].invoke(filtered_input))`. -/
  tool : String → PyVal → String

/-- One loop configuration: budget, whether `reason` routes through
`reflect`, the tool registry, the malformed-output recovery, the input
normalizer, the unknown-tool observation, and the budget apology. -/
structure AgentImpl where
  budget : Nat
  hasReflect : Bool
  toolNames : List String
  recover : String → String
  parseInput : String → PyVal → Except PErr PyVal
  notFound : String → String
  apology : String

/-- Python `list` repr of a list of strings, for the unknown-tool message. -/
def pyListRepr (names : List String) : String :=
  "[" ++ String.intercalate ", " (names.map (fun n => "'" ++ n ++ "'")) ++ "]"

/-- The two extraction tool names. -/
def extractionToolNames : List String :=
  ["extract_content_local", "extract_git_content"]

/-- `ConversationAgent` configuration: budget 10, reflection on, tools =
all registered tools except the two extraction tools. -/
def convAgent (jl : String → Option PyVal) (allToolNames : List String) :
    AgentImpl where
  budget := 10
  hasReflect := true
  toolNames := allToolNames.filter (fun n => !extractionToolNames.contains n)
  recover := convRecoverText
  parseInput := convParseToolInput jl
  notFound := fun n =>
    "Tool '" ++ n ++ "' not found in conversation tools. Available tools: " ++
      pyListRepr (allToolNames.filter (fun m => !extractionToolNames.contains m))
  apology := "I've spent some time analyzing your request but couldn't reach a clear conclusion. Could you please clarify what you're looking for?"

/-- `ExtractionAgent` configuration: budget 5, no reflection, tools =
only the two extraction tools present in the registry. -/
def extAgent (jl : String → Option PyVal) (allToolNames : List String) :
    AgentImpl where
  budget := 5
  hasReflect := false
  toolNames := allToolNames.filter (fun n => extractionToolNames.contains n)
  recover := extRecoverText
  parseInput := extParseToolInput jl
  notFound := fun n => "Tool '" ++ n ++ "' not found in extraction tools"
  apology := "Extraction process reached maximum steps. Please refine your query."

/-- `_reason_node`: invoke the runnable; on `OutputParserException`, wrap
the recovered text as an `AgentFinish` whose output and log are both that
text. -/
def reasonNode (impl : AgentImpl) (O : Oracles) (s : ExecState) : ExecState :=
  match O.reason s.input s.steps with
  | .action a => { s with outcome := .act a }
  | .finish o l => { s with outcome := .finish o l }
  | .parseFailure e =>
    let t := impl.recover e
    { s with outcome := .finish t t }

/-- Routing result of a conditional edge. -/
inductive Route where
  | act
  | finish

/-- `_should_continue` (identical in both agents up to budget and apology):
at or past the budget, overwrite the outcome with the apology `AgentFinish`
in place and finish; otherwise finish iff the outcome is an `AgentFinish`. -/
def shouldContinue (impl : AgentImpl) (s : ExecState) : Route × ExecState :=
  if impl.budget ≤ s.counter then
    (.finish, { s with outcome := .finish impl.apology "Max steps reached" })
  else
    match s.outcome with
    | .finish _ _ => (.finish, s)
    | _ => (.act, s)

/-- `_post_reflection_router`. -/
def postReflectionRouter (s : ExecState) : Route :=
  match s.outcome with
  | .finish _ _ => .finish
  | _ => .act

/-- Python `l[-n:]`. -/
def lastN {α : Type} (n : Nat) (l : List α) : List α :=
  l.drop (l.length - n)

/-- Python `len(set(l)) == 1` for a list of strings. -/
def setSizeOne : List String → Bool
  | [] => false
  | x :: xs => xs.all (fun y => y == x)

/-- `tool_sequence = [step[0].tool for step in intermediate_steps[-3:]]`. -/
def toolSequence (steps : List (AgentAction × String)) : List String :=
  (lastN 3 steps).map (fun p => p.1.tool)

/-- The truncated evidence list of `_synthesize_from_tools`:
`{"tool": action.tool, "result": result[:1000]}` per history entry,
preserving order. -/
def synthEvidence (steps : List (AgentAction × String)) :
    List (String × String) :=
  steps.map (fun p => (p.1.tool, strTake 1000 p.2))

/-- The log of the synthesized `AgentFinish`. -/
def synthLog : String := "Synthesized answer from repeated tool calls"

/-- The rewritten `working_input` of the efficiency branch (the f-string of
`_reflect_node`; the indentation whitespace of the prompt template is not
reproduced exactly — it never affects control flow). -/
def effRewrite (reflection originalInput : String) : String :=
  "\nYour previous approach has taken multiple steps without reaching a conclusion.\n\nReflection: " ++
    reflection ++
    "\n\nPlease reconsider your strategy. Consider whether you can:\n1. Answer directly from existing information\n2. Use a different tool that might be more effective\n3. Break down the problem differently\n\nOriginal query: " ++
    originalInput ++ "\n"

/-- `ConversationAgent._reflect_node`.  The `session.add_entity` calls are
writes to the external session store and are not part of the graph state.
`tool_sequence` is the tool names of `intermediate_steps[-3:]`. -/
def reflectNode (O : Oracles) (s : ExecState) : ExecState :=
  match s.outcome with
  | .finish _ _ => s
  | _ =>
    if s.counter < 2 ∨ s.steps.length < 2 then s
    else
      let seq := toolSequence s.steps
      let s1 :=
        if 2 ≤ seq.length ∧ setSizeOne (lastN 2 seq) = true then
          let critique := O.loopCritique seq (lastN 2 s.steps)
          let s' := { s with reflections :=
            s.reflections ++ [⟨s.counter, .loopDetection, critique⟩] }
          if 3 < s.counter ∧ setSizeOne seq = true then
            { s' with outcome :=
                .finish (O.synth s.input (synthEvidence s.steps)) synthLog }
          else s'
        else s
      if 5 < s.counter ∧ s1.outcome.isFinish = false then
        let critique := O.effCritique s.counter seq (lastN 3 s.steps)
        { s1 with
            reflections := s1.reflections ++ [⟨s.counter, .efficiency, critique⟩],
            input := effRewrite critique s.input }
      else s1

/-- `_act_node` (identical in both agents up to registry and message):
increment `step_counter`, then: `None` outcome appends nothing; unknown tool
appends the synthetic not-found observation; known tool normalizes the input
(a normalizer exception propagates and aborts the run) and appends the
stringified tool result.  Acting on an `AgentFinish` would raise
`AttributeError` at `.tool` (unreachable from the routers). -/
def actNode (impl : AgentImpl) (O : Oracles) (s : ExecState) :
    Except PErr ExecState :=
  let c := s.counter + 1
  match s.outcome with
  | .unset => .ok { s with counter := c }
  | .finish _ _ => .error .attributeError
  | .act a =>
    if a.tool ∈ impl.toolNames then
      match impl.parseInput a.tool a.toolInput with
      | .error e => .error e
      | .ok filtered =>
        .ok { s with counter := c,
                     steps := s.steps ++ [(a, O.tool a.tool filtered)] }
    else
      .ok { s with counter := c,
                   steps := s.steps ++ [(a, impl.notFound a.tool)] }

/-- The four graph nodes as machine phases (`finish` + `END` collapse to
`finished`: `_finish_node` returns the state unchanged). -/
inductive Phase where
  | reasoning
  | reflecting
  | acting
  | finished

/-- A machine configuration. -/
structure Config where
  phase : Phase
  st : ExecState

/-- One scheduler superstep: run the current node, then its outgoing
(conditional) edge. -/
def stepM (impl : AgentImpl) (O : Oracles) : Config → Except PErr Config
  | ⟨.reasoning, s⟩ =>
    let s1 := reasonNode impl O s
    match shouldContinue impl s1 with
    | (.finish, s2) => .ok ⟨.finished, s2⟩
    | (.act, s2) =>
      .ok ⟨if impl.hasReflect then .reflecting else .acting, s2⟩
  | ⟨.reflecting, s⟩ =>
    let s1 := reflectNode O s
    match postReflectionRouter s1 with
    | .finish => .ok ⟨.finished, s1⟩
    | .act => .ok ⟨.acting, s1⟩
  | ⟨.acting, s⟩ =>
    match actNode impl O s with
    | .error e => .error e
    | .ok s1 => .ok ⟨.reasoning, s1⟩
  | ⟨.finished, s⟩ => .ok ⟨.finished, s⟩

/-- The initial graph state passed to `app.invoke` (the conversation agent
passes the memory-enhanced query as `input`; both start with no outcome, no
steps, counter 0). -/
def initState (query : String) : ExecState :=
  ⟨query, .unset, [], 0, []⟩

/-- The configurations a run started on `query` can reach (runs that die on
a propagated exception produce no further configurations). -/
inductive Reaches (impl : AgentImpl) (O : Oracles) (query : String) :
    Config → Prop where
  | init : Reaches impl O query ⟨.reasoning, initState query⟩
  | next {c c' : Config} : Reaches impl O query c →
      stepM impl O c = .ok c' → Reaches impl O query c'

/-! ### Run invariants -/

/-- The master invariant of both loops: the counter is bounded by the
budget and tracks the history length; `reflect`/`act` only run on a pending
action strictly below the budget; a finished run holds an `AgentFinish`,
which is the forced apology whenever the budget was consumed. -/
def Inv (impl : AgentImpl) (c : Config) : Prop :=
  c.st.counter ≤ impl.budget ∧
  c.st.counter = c.st.steps.length ∧
  (c.phase = .reasoning →
    c.st.outcome = .unset ∨ ∃ a, c.st.outcome = .act a) ∧
  ((c.phase = .reflecting ∨ c.phase = .acting) →
    c.st.counter < impl.budget ∧ ∃ a, c.st.outcome = .act a) ∧
  (c.phase = .finished →
    (∃ o l, c.st.outcome = .finish o l) ∧
    (c.st.counter = impl.budget →
      c.st.outcome = .finish impl.apology "Max steps reached"))

theorem reasonNode_fields (impl : AgentImpl) (O : Oracles) (s : ExecState) :
    (reasonNode impl O s).counter = s.counter ∧
    (reasonNode impl O s).steps = s.steps ∧
    ((∃ a, (reasonNode impl O s).outcome = .act a) ∨
      ∃ o l, (reasonNode impl O s).outcome = .finish o l) := by
  unfold reasonNode
  cases O.reason s.input s.steps with
  | action a => exact ⟨rfl, rfl, Or.inl ⟨a, rfl⟩⟩
  | finish o l => exact ⟨rfl, rfl, Or.inr ⟨o, l, rfl⟩⟩
  | parseFailure e => exact ⟨rfl, rfl, Or.inr ⟨_, _, rfl⟩⟩

theorem reflectNode_fields (O : Oracles) (s : ExecState) :
    (reflectNode O s).counter = s.counter ∧
    (reflectNode O s).steps = s.steps ∧
    ((reflectNode O s).outcome = s.outcome ∨
      ∃ o l, (reflectNode O s).outcome = .finish o l) := by
  rcases s with ⟨inp, out, steps, cnt, refls⟩
  cases out with
  | finish o l => exact ⟨rfl, rfl, Or.inl rfl⟩
  | unset =>
    simp only [reflectNode]
    split
    · exact ⟨rfl, rfl, Or.inl rfl⟩
    · split <;> split <;>
        first
          | exact ⟨rfl, rfl, Or.inl rfl⟩
          | exact ⟨rfl, rfl, Or.inr ⟨_, _, rfl⟩⟩
          | (split <;>
              first
                | exact ⟨rfl, rfl, Or.inl rfl⟩
                | exact ⟨rfl, rfl, Or.inr ⟨_, _, rfl⟩⟩)
  | act a =>
    simp only [reflectNode]
    split
    · exact ⟨rfl, rfl, Or.inl rfl⟩
    · split <;> split <;>
        first
          | exact ⟨rfl, rfl, Or.inl rfl⟩
          | exact ⟨rfl, rfl, Or.inr ⟨_, _, rfl⟩⟩
          | (split <;>
              first
                | exact ⟨rfl, rfl, Or.inl rfl⟩
                | exact ⟨rfl, rfl, Or.inr ⟨_, _, rfl⟩⟩)

/-- `shouldContinue` case analysis. -/
theorem shouldContinue_cases (impl : AgentImpl) (s : ExecState) :
    (impl.budget ≤ s.counter ∧
      shouldContinue impl s =
        (.finish, { s with outcome := .finish impl.apology "Max steps reached" })) ∨
    (s.counter < impl.budget ∧ (∃ o l, s.outcome = .finish o l) ∧
      shouldContinue impl s = (.finish, s)) ∨
    (s.counter < impl.budget ∧ (∀ o l, s.outcome ≠ .finish o l) ∧
      shouldContinue impl s = (.act, s)) := by
  unfold shouldContinue
  by_cases h : impl.budget ≤ s.counter
  · left; exact ⟨h, by simp [h]⟩
  · right
    have hlt : s.counter < impl.budget := Nat.lt_of_not_le h
    cases hout : s.outcome with
    | finish o l => exact Or.inl ⟨hlt, ⟨o, l, rfl⟩, by simp [h, hout]⟩
    | unset => exact Or.inr ⟨hlt, by simp [hout], by simp [h, hout]⟩
    | act a => exact Or.inr ⟨hlt, by simp [hout], by simp [h, hout]⟩

/-- Every reachable configuration satisfies the master invariant. -/
theorem reaches_inv {impl : AgentImpl} {O : Oracles} {q : String} {c : Config}
    (h : Reaches impl O q c) : Inv impl c := by
  induction h with
  | init =>
    refine ⟨Nat.zero_le _, rfl, fun _ => Or.inl rfl, ?_, ?_⟩
    · rintro (hp | hp) <;> exact Phase.noConfusion hp
    · intro hp; exact Phase.noConfusion hp
  | @next c c' hr hstep ih =>
    obtain ⟨hbound, hlen, hreas, hmid, hfin⟩ := ih
    rcases c with ⟨ph, s⟩
    dsimp only at hbound hlen hreas hmid hfin
    cases ph with
    | finished =>
      simp only [stepM] at hstep
      cases hstep
      exact ⟨hbound, hlen, hreas, hmid, hfin⟩
    | reasoning =>
      simp only [stepM] at hstep
      obtain ⟨hc1, hs1, hout1⟩ := reasonNode_fields impl O s
      have hs1L : (reasonNode impl O s).steps.length = s.steps.length := by rw [hs1]
      rcases shouldContinue_cases impl (reasonNode impl O s) with
        ⟨hge, heq⟩ | ⟨hlt, ⟨o, l, ho⟩, heq⟩ | ⟨hlt, hno, heq⟩
      · rw [heq] at hstep
        cases hstep
        refine ⟨?_, ?_, ?_, ?_, ?_⟩ <;> dsimp only
        · omega
        · omega
        · intro hp; exact Phase.noConfusion hp
        · rintro (hp | hp) <;> exact Phase.noConfusion hp
        · exact fun _ => ⟨⟨_, _, rfl⟩, fun _ => rfl⟩
      · rw [heq] at hstep
        cases hstep
        refine ⟨?_, ?_, ?_, ?_, ?_⟩ <;> dsimp only
        · omega
        · omega
        · intro hp; exact Phase.noConfusion hp
        · rintro (hp | hp) <;> exact Phase.noConfusion hp
        · exact fun _ => ⟨⟨o, l, ho⟩, fun hcnt => by omega⟩
      · rw [heq] at hstep
        have hact : ∃ a, (reasonNode impl O s).outcome = .act a := by
          rcases hout1 with ha | ⟨o, l, ho⟩
          · exact ha
          · exact absurd ho (hno o l)
        cases himpl : impl.hasReflect <;> rw [himpl] at hstep <;>
          simp only [if_pos, if_neg, Bool.false_eq_true, if_false, if_true] at hstep <;>
          cases hstep <;>
          refine ⟨?_, ?_, ?_, ?_, ?_⟩ <;> dsimp only
        · omega
        · omega
        · intro hp; exact Phase.noConfusion hp
        · intro _; exact ⟨by omega, hact⟩
        · intro hp; exact Phase.noConfusion hp
        · omega
        · omega
        · intro hp; exact Phase.noConfusion hp
        · intro _; exact ⟨by omega, hact⟩
        · intro hp; exact Phase.noConfusion hp
    | reflecting =>
      obtain ⟨hlt, a, hout⟩ := hmid (Or.inl rfl)
      obtain ⟨hc1, hs1, hout1⟩ := reflectNode_fields O s
      have hs1L : (reflectNode O s).steps.length = s.steps.length := by rw [hs1]
      simp only [stepM] at hstep
      cases hrt : postReflectionRouter (reflectNode O s) with
      | finish =>
        rw [hrt] at hstep
        cases hstep
        have hfin1 : ∃ o l, (reflectNode O s).outcome = .finish o l := by
          unfold postReflectionRouter at hrt
          split at hrt
          · exact ⟨_, _, by assumption⟩
          · cases hrt
        refine ⟨?_, ?_, ?_, ?_, ?_⟩ <;> dsimp only
        · omega
        · omega
        · intro hp; exact Phase.noConfusion hp
        · rintro (hp | hp) <;> exact Phase.noConfusion hp
        · exact fun _ => ⟨hfin1, fun hcnt => by omega⟩
      | act =>
        rw [hrt] at hstep
        cases hstep
        have hact1 : (reflectNode O s).outcome = .act a := by
          rcases hout1 with he | ⟨o, l, ho⟩
          · exact he.trans hout
          · unfold postReflectionRouter at hrt
            rw [ho] at hrt
            cases hrt
        refine ⟨?_, ?_, ?_, ?_, ?_⟩ <;> dsimp only
        · omega
        · omega
        · intro hp; exact Phase.noConfusion hp
        · exact fun _ => ⟨by omega, a, hact1⟩
        · intro hp; exact Phase.noConfusion hp
    | acting =>
      obtain ⟨hlt, a, hout⟩ := hmid (Or.inr rfl)
      simp only [stepM] at hstep
      cases hact : actNode impl O s with
      | error e => rw [hact] at hstep; cases hstep
      | ok s1 =>
        rw [hact] at hstep
        cases hstep
        unfold actNode at hact
        rw [hout] at hact
        have hs1 : s1.counter = s.counter + 1 ∧
            s1.steps.length = s.steps.length + 1 ∧ s1.outcome = .act a := by
          simp only at hact
          split at hact
          · cases hp : impl.parseInput a.tool a.toolInput with
            | error e => rw [hp] at hact; cases hact
            | ok filtered =>
              rw [hp] at hact
              cases hact
              exact ⟨rfl, by simp, rfl⟩
          · cases hact
            exact ⟨rfl, by simp, rfl⟩
        obtain ⟨hcc, hss, hoo⟩ := hs1
        refine ⟨?_, ?_, ?_, ?_, ?_⟩ <;> dsimp only
        · omega
        · omega
        · exact fun _ => Or.inr ⟨a, hoo⟩
        · rintro (hp | hp) <;> exact Phase.noConfusion hp
        · intro hp; exact Phase.noConfusion hp

/-- Effect of one completed `act` superstep. -/
theorem act_step_effect {impl : AgentImpl} {O : Oracles} {s : ExecState}
    {c' : Config} (ha : ∃ a, s.outcome = .act a)
    (hstep : stepM impl O ⟨.acting, s⟩ = .ok c') :
    c'.phase = .reasoning ∧ c'.st.counter = s.counter + 1 ∧
    c'.st.steps.length = s.steps.length + 1 := by
  obtain ⟨a, hout⟩ := ha
  simp only [stepM] at hstep
  cases hact : actNode impl O s with
  | error e => rw [hact] at hstep; cases hstep
  | ok s1 =>
    rw [hact] at hstep
    cases hstep
    unfold actNode at hact
    rw [hout] at hact
    simp only at hact
    split at hact
    · cases hp : impl.parseInput a.tool a.toolInput with
      | error e => rw [hp] at hact; cases hact
      | ok filtered =>
        rw [hp] at hact
        cases hact
        exact ⟨rfl, rfl, by simp⟩
    · cases hact
      exact ⟨rfl, rfl, by simp⟩

/-- A reachable configuration holding an `AgentFinish` is in the terminal
phase. -/
theorem finish_phase {impl : AgentImpl} {O : Oracles} {q : String}
    {c : Config} (h : Reaches impl O q c)
    (hfin : ∃ o l, c.st.outcome = .finish o l) : c.phase = .finished := by
  obtain ⟨o, l, ho⟩ := hfin
  obtain ⟨_, _, hreas, hmid, _⟩ := reaches_inv h
  rcases c with ⟨ph, s⟩
  dsimp only at ho hreas hmid ⊢
  cases ph with
  | finished => rfl
  | reasoning =>
    rcases hreas rfl with h1 | ⟨a, h1⟩ <;> rw [ho] at h1 <;> cases h1
  | reflecting =>
    obtain ⟨_, a, h1⟩ := hmid (Or.inl rfl)
    rw [ho] at h1
    cases h1
  | acting =>
    obtain ⟨_, a, h1⟩ := hmid (Or.inr rfl)
    rw [ho] at h1
    cases h1

theorem setSizeOne_cons {x : String} {xs : List String}
    (h : setSizeOne (x :: xs) = true) (hne : xs ≠ []) :
    setSizeOne xs = true := by
  cases xs with
  | nil => exact absurd rfl hne
  | cons y ys =>
    simp only [setSizeOne, List.all_cons, Bool.and_eq_true] at h ⊢
    obtain ⟨hy, hall⟩ := h
    have hyx : y = x := eq_of_beq hy
    subst hyx
    exact hall

theorem setSizeOne_drop :
    ∀ (l : List String) (k : Nat), setSizeOne l = true → k < l.length →
      setSizeOne (l.drop k) = true := by
  intro l
  induction l with
  | nil => intro k _ hk; simp at hk
  | cons x xs ih =>
    intro k h hk
    cases k with
    | zero => exact h
    | succ k =>
      simp only [List.drop_succ_cons]
      have hne : xs ≠ [] := by
        intro hx
        rw [hx] at hk
        simp at hk
      refine ih k (setSizeOne_cons h hne) ?_
      simp only [List.length_cons] at hk
      omega

/-- If all recent tool names agree, so do the last two. -/
theorem setSizeOne_lastN_two {l : List String} (h : setSizeOne l = true)
    (hl : 2 ≤ l.length) : setSizeOne (lastN 2 l) = true :=
  setSizeOne_drop l (l.length - 2) h (by omega)

theorem toolSequence_length (steps : List (AgentAction × String)) :
    (toolSequence steps).length = steps.length - (steps.length - 3) := by
  simp [toolSequence, lastN]

/-- Outcome of the reflector on a pending action, in every branch. -/
theorem reflectNode_outcome_act (O : Oracles) (s : ExecState)
    (a : AgentAction) (ha : s.outcome = .act a) :
    ((s.counter < 2 ∨ s.steps.length < 2) →
      reflectNode O s = s) ∧
    (¬(s.counter < 2 ∨ s.steps.length < 2) →
      ((2 ≤ (toolSequence s.steps).length ∧
          setSizeOne (lastN 2 (toolSequence s.steps)) = true ∧
          3 < s.counter ∧ setSizeOne (toolSequence s.steps) = true) →
        (reflectNode O s).outcome =
          .finish (O.synth s.input (synthEvidence s.steps)) synthLog) ∧
      (¬(2 ≤ (toolSequence s.steps).length ∧
          setSizeOne (lastN 2 (toolSequence s.steps)) = true ∧
          3 < s.counter ∧ setSizeOne (toolSequence s.steps) = true) →
        (reflectNode O s).outcome = .act a)) := by
  rcases s with ⟨inp, out, steps, cnt, rf⟩
  dsimp only at ha ⊢
  subst ha
  constructor
  · intro h1
    simp only [reflectNode]
    rw [if_pos h1]
  · intro h1
    simp only [reflectNode]
    rw [if_neg h1]
    constructor
    · rintro ⟨hlen, hlast, hc3, hall⟩
      rw [if_pos (show 2 ≤ (toolSequence steps).length ∧
            setSizeOne (lastN 2 (toolSequence steps)) = true from ⟨hlen, hlast⟩),
        if_pos (show 3 < cnt ∧ setSizeOne (toolSequence steps) = true from
            ⟨hc3, hall⟩),
        if_neg (by simp [Outcome.isFinish])]
    · intro h2
      by_cases hA : 2 ≤ (toolSequence steps).length ∧
          setSizeOne (lastN 2 (toolSequence steps)) = true
      · rw [if_pos (show 2 ≤ (toolSequence steps).length ∧
              setSizeOne (lastN 2 (toolSequence steps)) = true from hA)]
        by_cases hB : 3 < cnt ∧ setSizeOne (toolSequence steps) = true
        · exact absurd ⟨hA.1, hA.2, hB.1, hB.2⟩ h2
        · rw [if_neg (show ¬(3 < cnt ∧ setSizeOne (toolSequence steps) = true)
              from hB)]
          split <;> rfl
      · rw [if_neg (show ¬(2 ≤ (toolSequence steps).length ∧
              setSizeOne (lastN 2 (toolSequence steps)) = true) from hA)]
        split <;> rfl

/-- The reflections log after the loop-detection branch fires. -/
theorem reflectNode_reflections_loop (O : Oracles) (s : ExecState)
    (a : AgentAction) (ha : s.outcome = .act a)
    (h1 : ¬(s.counter < 2 ∨ s.steps.length < 2))
    (hlen : 2 ≤ (toolSequence s.steps).length)
    (hlast : setSizeOne (lastN 2 (toolSequence s.steps)) = true) :
    ∃ rest, (reflectNode O s).reflections =
      s.reflections ++ ⟨s.counter, .loopDetection,
        O.loopCritique (toolSequence s.steps) (lastN 2 s.steps)⟩ :: rest := by
  rcases s with ⟨inp, out, steps, cnt, rf⟩
  dsimp only at ha h1 hlen hlast ⊢
  subst ha
  simp only [reflectNode]
  rw [if_neg h1, if_pos (show 2 ≤ (toolSequence steps).length ∧
      setSizeOne (lastN 2 (toolSequence steps)) = true from ⟨hlen, hlast⟩)]
  split
  · rw [if_neg (by simp [Outcome.isFinish])]
    exact ⟨[], by simp⟩
  · split
    · exact ⟨[⟨cnt, .efficiency,
        O.effCritique cnt (toolSequence steps) (lastN 3 steps)⟩], by simp⟩
    · exact ⟨[], by simp⟩

/-! ## Demonstration data for concrete witnesses -/

/-- An oracle whose reasoning call always throws the same
`OutputParserException`. -/
def demoParseFailOracle : Oracles where
  reason := fun _ _ =>
    .parseFailure "Could not parse LLM output: Final Answer: yes"
  loopCritique := fun _ _ => ""
  effCritique := fun _ _ _ => ""
  synth := fun _ _ => ""
  tool := fun _ _ => ""

/-- The captured `Final Answer:` group of the demo exception text. -/
def finalAnswerDemoCapture : List Char := "yes".data

/-- An oracle whose reasoning call immediately returns a final answer. -/
def demoFinOracle : Oracles where
  reason := fun _ _ => .finish "hi" "hi"
  loopCritique := fun _ _ => ""
  effCritique := fun _ _ _ => ""
  synth := fun _ _ => ""
  tool := fun _ _ => ""

/-- The state after the demo final answer. -/
def budgetDemoState : ExecState := ⟨"q", .finish "hi" "hi", [], 0, []⟩

/-- A pending action naming a tool absent from an empty registry. -/
def demoAction : AgentAction := ⟨"mystery_tool", .str "x", "log"⟩

/-- An oracle whose reasoning call always proposes `demoAction`. -/
def demoActOracle : Oracles where
  reason := fun _ _ => .action demoAction
  loopCritique := fun _ _ => ""
  effCritique := fun _ _ _ => ""
  synth := fun _ _ => ""
  tool := fun _ _ => ""

/-- The state holding the pending demo action. -/
def demoActState : ExecState := ⟨"q", .act demoAction, [], 0, []⟩

/-- The state after acting on the unknown demo tool. -/
def demoActedState : ExecState :=
  ⟨"q", .act demoAction,
    [(demoAction,
      (convAgent (fun _ => Option.none) []).notFound "mystery_tool")], 1, []⟩

/-- A pending action that keeps calling the same tool. -/
def loopAction : AgentAction := ⟨"searcher", .str "x", "log"⟩

/-- A state caught repeating `loopAction` for four steps. -/
def loopState : ExecState :=
  ⟨"q", .act loopAction,
    [(loopAction, "r1"), (loopAction, "r2"), (loopAction, "r3"),
      (loopAction, "r4")], 4, []⟩

/-! ## Claims -/

/-- C10: The session entity map is keyed by the string concatenation of
type, `:`, and value, which is not injective over (type, value) pairs:
`("a", "b:c")` and `("a:b", "c")` are distinct pairs with the same key
`"a:b:c"`, so adding the second entity overwrites the first, unrelated one
and leaves the entity count unchanged. -/
theorem c10_entity_key_collision :
    entityKey "a" "b:c" = entityKey "a:b" "c" ∧
    (("a", "b:c") : String × String) ≠ ("a:b", "c") ∧
    (addEntity [] "a" "b:c" 0 (.dict [])).length = 1 ∧
    addEntity (addEntity [] "a" "b:c" 0 (.dict [])) "a:b" "c" 1 (.dict []) =
      [("a:b:c", ⟨"a:b", "c", 1, .dict []⟩)] ∧
    (addEntity (addEntity [] "a" "b:c" 0 (.dict [])) "a:b" "c" 1
        (.dict [])).length =
      (addEntity [] "a" "b:c" 0 (.dict [])).length := by
  refine ⟨rfl, by decide, rfl, rfl, rfl⟩

/-- C5 counterexample: the classifier lower-cases the LLM output before
comparing, so the wrong-case literal `"Extraction"` is accepted as
`extraction` rather than being treated as invalid; on an
extraction-keyword-free query the heuristic fallback the claim predicts
would instead pick `conversation`. -/
theorem c5_counterexample :
    classifyQuery (.ok "Extraction") "hello" = "extraction" ∧
    fallbackRouting "hello" = "conversation" ∧
    ("extraction" : String) ≠ "conversation" := by
  refine ⟨by decide, ?_, by decide⟩
  have hm : extractionPatternsMatch "hello" = false := by decide
  unfold fallbackRouting conversationCanHandle extractionCanHandle
  rw [hm]
  norm_num

/-- C5 (amended): the query classifier strips and lower-cases the LLM
output and accepts the labels `extraction`/`conversation`
case-insensitively; any other output yields `conversation` directly, and
only a classification exception falls back to the heuristic scorer, where
the strictly higher `can_handle` score wins and ties select conversation. -/
theorem c5_classifier_routing :
    (∀ resp query,
        pyLower (pyStrip resp) = "extraction" ∨
          pyLower (pyStrip resp) = "conversation" →
        classifyQuery (.ok resp) query = pyLower (pyStrip resp)) ∧
    (∀ resp query, pyLower (pyStrip resp) ≠ "extraction" →
        pyLower (pyStrip resp) ≠ "conversation" →
        classifyQuery (.ok resp) query = "conversation") ∧
    (∀ query, classifyQuery (.error ()) query = fallbackRouting query) ∧
    (∀ query, extractionCanHandle query ≤ conversationCanHandle query →
        fallbackRouting query = "conversation") ∧
    (∀ query, conversationCanHandle query < extractionCanHandle query →
        fallbackRouting query = "extraction") := by
  refine ⟨?_, ?_, fun _ => rfl, ?_, ?_⟩
  · intro resp q h
    unfold classifyQuery
    rcases h with h | h <;> simp [h]
  · intro resp q h1 h2
    unfold classifyQuery
    simp [h1, h2]
  · intro q h
    unfold fallbackRouting
    rw [if_neg (not_lt.mpr h)]
  · intro q h
    unfold fallbackRouting
    rw [if_pos h]

/-- C5 witness: concrete instances of the amended classifier claim. -/
theorem c5_classifier_routing_witness :
    classifyQuery (.ok " Extraction ") "hello" = pyLower (pyStrip " Extraction ") ∧
    classifyQuery (.ok "banana") "hello" = "conversation" ∧
    fallbackRouting "hello" = "conversation" := by
  have hm : extractionPatternsMatch "hello" = false := by decide
  refine ⟨c5_classifier_routing.1 " Extraction " "hello" (Or.inl (by decide)),
    c5_classifier_routing.2.1 "banana" "hello" (by decide) (by decide),
    c5_classifier_routing.2.2.2.1 "hello" ?_⟩
  unfold extractionCanHandle conversationCanHandle
  rw [hm]
  norm_num

/-- C3 counterexample: the extraction loop's reasoning step does not run
the label-stripping/apology cascade the claim describes.  On the raw
unparsable output `"Thought:"` the claim predicts the step-structure label
is stripped, nothing remains, and the fixed apology is substituted; the
extraction agent instead returns the label-bearing text verbatim (the
conversation agent, for contrast, does produce the apology here). -/
theorem c3_counterexample :
    extRecoverText "Could not parse LLM output: Thought:" = "Thought:" ∧
    hasStructureLabel "Thought:" = true ∧
    "Thought:" ≠ convRecoveryApology ∧
    convRecoverText "Could not parse LLM output: Thought:" =
      convRecoveryApology := by
  exact ⟨by decide, by decide, by decide, by decide⟩

/-- C3 (amended): on a reasoning invocation whose raw LLM output cannot be
parsed, both loops return a `FinalAnswer` and never an error; the
conversation loop applies the recovery cascade — the first line after a
`Final Answer:` label when present, else the text with the
Thought/Action/Action Input/Observation labels stripped, else the original
text, with a fixed apology substituted whenever nothing non-whitespace
remains — while the extraction loop uses the trimmed raw text verbatim
(no label stripping, no apology, possibly empty). -/
theorem c3_parse_failure_recovery :
    (∀ jl ns O s e, O.reason s.input s.steps = .parseFailure e →
        (reasonNode (convAgent jl ns) O s).outcome =
          .finish (convRecoverText e) (convRecoverText e) ∧
        (reasonNode (extAgent jl ns) O s).outcome =
          .finish (extRecoverText e) (extRecoverText e)) ∧
    (∀ e g, finalAnswerCapture (extRecoverText e).data = some g →
        convRecoverText e =
          if pyStrip (String.mk (stripListBy pyIsSpace g)) = "" then
            convRecoveryApology
          else String.mk (stripListBy pyIsSpace g)) ∧
    (∀ e, finalAnswerCapture (extRecoverText e).data = Option.none →
        hasStructureLabel (extRecoverText e) = false →
        convRecoverText e =
          if pyStrip (extRecoverText e) = "" then convRecoveryApology
          else extRecoverText e) ∧
    (∀ e, finalAnswerCapture (extRecoverText e).data = Option.none →
        hasStructureLabel (extRecoverText e) = true →
        convRecoverText e =
          if pyStrip (String.mk (stripStructureLabels (extRecoverText e).data)) = ""
          then convRecoveryApology
          else String.mk (stripStructureLabels (extRecoverText e).data)) ∧
    (∀ e, pyStrip (convRecoverText e) ≠ "") := by
  refine ⟨?_, ?_, ?_, ?_, ?_⟩
  · intro jl ns O s e he
    refine ⟨?_, ?_⟩ <;> · simp only [reasonNode, he]; rfl
  · intro e g hg
    simp only [extRecoverText] at hg
    simp only [convRecoverText, hg]
  · intro e hg hl
    simp only [extRecoverText] at hg hl
    simp only [convRecoverText, extRecoverText, hg, hl, if_false,
      Bool.false_eq_true]
  · intro e hg hl
    simp only [extRecoverText] at hg hl
    simp only [convRecoverText, extRecoverText, hg, hl, if_true]
  · intro e
    simp only [convRecoverText]
    by_cases h :
        pyStrip
          (match finalAnswerCapture
              (pyStrip (splitLastOn "Could not parse LLM output:" e)).data with
            | some g => String.mk (stripListBy pyIsSpace g)
            | Option.none =>
              if hasStructureLabel
                  (pyStrip (splitLastOn "Could not parse LLM output:" e)) = true then
                String.mk (stripStructureLabels
                  (pyStrip (splitLastOn "Could not parse LLM output:" e)).data)
              else pyStrip (splitLastOn "Could not parse LLM output:" e)) = ""
    · rw [if_pos h]; decide
    · rw [if_neg h]; exact h

/-- C3 witness: the amended recovery claim at concrete inputs. -/
theorem c3_parse_failure_recovery_witness :
    (reasonNode (convAgent (fun _ => Option.none) []) demoParseFailOracle
        (initState "q")).outcome =
      .finish (convRecoverText "Could not parse LLM output: Final Answer: yes")
        (convRecoverText "Could not parse LLM output: Final Answer: yes") ∧
    (reasonNode (extAgent (fun _ => Option.none) []) demoParseFailOracle
        (initState "q")).outcome =
      .finish (extRecoverText "Could not parse LLM output: Final Answer: yes")
        (extRecoverText "Could not parse LLM output: Final Answer: yes") ∧
    convRecoverText "Could not parse LLM output: Final Answer: yes" =
      if pyStrip (String.mk (stripListBy pyIsSpace
          (finalAnswerDemoCapture))) = "" then convRecoveryApology
      else String.mk (stripListBy pyIsSpace finalAnswerDemoCapture) := by
  obtain ⟨h1, h2⟩ := c3_parse_failure_recovery.1 (fun _ => Option.none) []
    demoParseFailOracle (initState "q")
    "Could not parse LLM output: Final Answer: yes" rfl
  refine ⟨h1, h2, ?_⟩
  exact c3_parse_failure_recovery.2.1
    "Could not parse LLM output: Final Answer: yes" finalAnswerDemoCapture
    (by decide)

/-- C4 counterexample: the normalizers can raise.  An integer raw input
reaching `ExtractionAgent._parse_tool_input` skips both `isinstance`
branches and leaves `parsed_input` unbound (`NameError`); a mapping lacking
`query`/`input` handed to the conversation normalizer for the search tool
makes `query` equal to `None`, and `None.strip()` raises
`AttributeError`. -/
theorem c4_counterexample :
    extParseToolInput (fun _ => Option.none) "extract_content_local" (.int 7) =
      .error .nameError ∧
    convParseToolInput (fun _ => Option.none) "tavily_search_results_json"
        (.dict []) =
      .error .attributeError := ⟨rfl, rfl⟩

/-- C4 (amended): for every tool name and every free-text raw input that
fails JSON decoding, both normalizers return a structured mapping and never
raise, and a heuristic miss produces the documented per-tool default
(history limit 5; entity lookup `{entity_type: "", limit: 5}`; local
extraction falls back to the stripped text as directory with extensions
`['.py']` and `clipboard_only` false).  The never-raise guarantee does not
extend to non-string, non-mapping inputs or to JSON-decoded non-mapping
payloads (see the counterexample). -/
theorem c4_normalizer_freetext_total :
    (∀ jl tool s, jl s = Option.none →
        ∃ fs, convParseToolInput jl tool (.str s) = .ok (.dict fs)) ∧
    (∀ jl tool s, jl s = Option.none →
        ∃ fs, extParseToolInput jl tool (.str s) = .ok (.dict fs)) ∧
    (∀ jl s, jl s = Option.none → pyIntOfString s = Option.none →
        limitSearch s.data = Option.none →
        convParseToolInput jl "get_conversation_history" (.str s) =
          .ok (.dict [("limit", .int 5)])) ∧
    (∀ jl s, jl s = Option.none → entityTypeSearch s.data = Option.none →
        limitSearch s.data = Option.none →
        convParseToolInput jl "get_memory_entities" (.str s) =
          .ok (.dict [("entity_type", .str ""), ("limit", .int 5)])) ∧
    (∀ jl s, jl s = Option.none → firstLocalPath s.data = Option.none →
        findExtTokens s.data = [] →
        extParseToolInput jl "extract_content_local" (.str s) =
          .ok (.dict [("directory", .str (pyStrip s)),
                      ("extensions", .list [.str ".py"]),
                      ("clipboard_only", .bool false)])) := by
  refine ⟨?_, ?_, ?_, ?_, ?_⟩
  · intro jl tool s hjl
    unfold convParseToolInput
    simp only [hjl]
    split_ifs <;> exact ⟨_, rfl⟩
  · intro jl tool s hjl
    unfold extParseToolInput
    simp only [hjl]
    split_ifs <;> exact ⟨_, rfl⟩
  · intro jl s hjl hint hlim
    unfold convParseToolInput
    simp only [hjl, hint, hlim, if_neg (by decide : ¬ ("get_conversation_history" : String) = "get_system_time"),
      if_neg (by decide : ¬ ("get_conversation_history" : String) = "tavily_search_results_json"),
      if_pos rfl]
    rfl
  · intro jl s hjl hent hlim
    unfold convParseToolInput
    simp only [hjl, hent, hlim,
      if_neg (by decide : ¬ ("get_memory_entities" : String) = "get_system_time"),
      if_neg (by decide : ¬ ("get_memory_entities" : String) = "tavily_search_results_json"),
      if_neg (by decide : ¬ ("get_memory_entities" : String) = "get_conversation_history"),
      if_pos rfl]
    rfl
  · intro jl s hjl hdir hext
    unfold extParseToolInput
    simp only [hjl, if_pos rfl, parseLocalInput, hdir, hext]
    rfl

/-- C4 witness: the amended normalizer claim at concrete inputs. -/
theorem c4_normalizer_freetext_total_witness :
    (∃ fs, convParseToolInput (fun _ => Option.none) "some_tool"
        (.str "free text") = .ok (.dict fs)) ∧
    (∃ fs, extParseToolInput (fun _ => Option.none) "extract_git_content"
        (.str "clone https://github.com/a/b") = .ok (.dict fs)) ∧
    convParseToolInput (fun _ => Option.none) "get_conversation_history"
        (.str "recent turns") = .ok (.dict [("limit", .int 5)]) ∧
    extParseToolInput (fun _ => Option.none) "extract_content_local"
        (.str "everything here") =
      .ok (.dict [("directory", .str (pyStrip "everything here")),
                  ("extensions", .list [.str ".py"]),
                  ("clipboard_only", .bool false)]) := by
  refine ⟨c4_normalizer_freetext_total.1 _ "some_tool" "free text" rfl,
    c4_normalizer_freetext_total.2.1 _ "extract_git_content"
      "clone https://github.com/a/b" rfl,
    c4_normalizer_freetext_total.2.2.1 _ "recent turns" rfl (by decide)
      (by decide),
    c4_normalizer_freetext_total.2.2.2.2 _ "everything here" rfl (by decide)
      (by decide)⟩

/-- C7 counterexample: already-structured inputs are not normalized the way
the claim states.  The conversation normalizer rebuilds a fixed-key mapping
for its recognized tools and drops the explicitly supplied field `other`;
the extraction normalizer returns a structured input unchanged without
filling the `extensions`/`clipboard_only` defaults. -/
theorem c7_counterexample :
    convParseToolInput (fun _ => Option.none) "get_system_time"
        (.dict [("format", .str "x"), ("other", .str "y")]) =
      .ok (.dict [("format", .str "x")]) ∧
    dictGet [("format", PyVal.str "x"), ("other", PyVal.str "y")] "other" =
      some (.str "y") ∧
    dictGet [("format", PyVal.str "x")] "other" = Option.none ∧
    extParseToolInput (fun _ => Option.none) "extract_content_local"
        (.dict []) = .ok (.dict []) ∧
    dictGet [] "extensions" = Option.none := ⟨rfl, rfl, rfl, rfl, rfl⟩

/-- C7 (amended): the extraction normalizer returns every already-structured
(mapping) input completely unchanged — idempotent and lossless, but filling
no defaults (its defaults apply only to string inputs) — and the
conversation normalizer passes mappings through unchanged only for tools
other than its four recognized ones; for those four it rebuilds a mapping
containing only that tool's expected keys, so explicitly supplied extra
fields can be dropped (see the counterexample). -/
theorem c7_structured_passthrough :
    (∀ jl tool fs, extParseToolInput jl tool (.dict fs) = .ok (.dict fs)) ∧
    (∀ jl tool fs, tool ≠ "get_system_time" →
        tool ≠ "tavily_search_results_json" →
        tool ≠ "get_conversation_history" → tool ≠ "get_memory_entities" →
        convParseToolInput jl tool (.dict fs) = .ok (.dict fs)) := by
  constructor
  · intro jl tool fs; rfl
  · intro jl tool fs h1 h2 h3 h4
    unfold convParseToolInput convDispatch
    rw [if_neg h1, if_neg h2, if_neg h3, if_neg h4]

/-- C7 witness: concrete instances of the amended pass-through claim. -/
theorem c7_structured_passthrough_witness :
    extParseToolInput (fun _ => Option.none) "extract_git_content"
        (.dict [("git_url", .str "https://github.com/a/b")]) =
      .ok (.dict [("git_url", .str "https://github.com/a/b")]) ∧
    convParseToolInput (fun _ => Option.none) "web_search"
        (.dict [("q", .str "x")]) = .ok (.dict [("q", .str "x")]) :=
  ⟨c7_structured_passthrough.1 _ "extract_git_content" _,
    c7_structured_passthrough.2 _ "web_search" _ (by decide) (by decide)
      (by decide) (by decide)⟩

/-- C1: In every run of either loop, the step counter when the machine
reaches `Finished` is at most the configured budget (10 for the
conversation loop, 5 for the extraction loop), and a run whose counter
reaches the budget finishes with its outcome forcibly overwritten by the
loop's fixed apology `FinalAnswer`. -/
theorem c1_step_budget :
    (∀ jl ns O q c, Reaches (convAgent jl ns) O q c → c.phase = .finished →
        c.st.counter ≤ 10 ∧
        (c.st.counter = 10 → c.st.outcome =
          .finish "I've spent some time analyzing your request but couldn't reach a clear conclusion. Could you please clarify what you're looking for?"
            "Max steps reached")) ∧
    (∀ jl ns O q c, Reaches (extAgent jl ns) O q c → c.phase = .finished →
        c.st.counter ≤ 5 ∧
        (c.st.counter = 5 → c.st.outcome =
          .finish "Extraction process reached maximum steps. Please refine your query."
            "Max steps reached")) := by
  constructor <;>
  · intro jl ns O q c h hph
    obtain ⟨hb, _, _, _, hf⟩ := reaches_inv h
    exact ⟨hb, (hf hph).2⟩

/-- C1 witness: a concrete finished run of the conversation loop. -/
theorem c1_step_budget_witness :
    (⟨.finished, budgetDemoState⟩ : Config).st.counter ≤ 10 ∧
    ((⟨.finished, budgetDemoState⟩ : Config).st.counter = 10 →
      (⟨.finished, budgetDemoState⟩ : Config).st.outcome =
        .finish "I've spent some time analyzing your request but couldn't reach a clear conclusion. Could you please clarify what you're looking for?"
          "Max steps reached") :=
  c1_step_budget.1 (fun _ => Option.none) [] demoFinOracle "q"
    ⟨.finished, budgetDemoState⟩ (Reaches.next Reaches.init rfl) rfl

/-- C2: In every conversation run, once the outcome is a `FinalAnswer` the
machine is in the terminal phase and stepping leaves the configuration
(and hence the outcome and the history) unchanged — no further `Act`
occurs; moreover the reflector never mutates a `FinalAnswer` outcome, the
post-reflection router finishes on it, and the only transition that
overwrites a `FinalAnswer` is the forced-budget apology in
`_should_continue`. -/
theorem c2_final_answer_stability :
    (∀ jl ns O q c, Reaches (convAgent jl ns) O q c →
        (∃ o l, c.st.outcome = .finish o l) →
        c.phase = .finished ∧ stepM (convAgent jl ns) O c = .ok c) ∧
    (∀ jl ns O s o l, s.outcome = .finish o l →
        reflectNode O s = s ∧
        postReflectionRouter s = .finish ∧
        (s.counter < 10 → shouldContinue (convAgent jl ns) s = (.finish, s)) ∧
        (10 ≤ s.counter → shouldContinue (convAgent jl ns) s =
          (.finish, { s with
            outcome := Outcome.finish (convAgent jl ns).apology
              "Max steps reached" }))) := by
  constructor
  · intro jl ns O q c h hfin
    have hph := finish_phase h hfin
    rcases c with ⟨ph, s⟩
    dsimp only at hph
    subst hph
    exact ⟨rfl, rfl⟩
  · intro jl ns O s o l ho
    refine ⟨?_, ?_, ?_, ?_⟩
    · rcases s with ⟨inp, out, st, cnt, rf⟩
      dsimp only at ho
      subst ho
      rfl
    · unfold postReflectionRouter
      rw [ho]
    · intro hlt
      have hb : (convAgent jl ns).budget = 10 := rfl
      unfold shouldContinue
      rw [hb, if_neg (Nat.not_le.mpr hlt), ho]
    · intro hge
      have hb : (convAgent jl ns).budget = 10 := rfl
      unfold shouldContinue
      rw [hb, if_pos hge]

/-- C2 witness: the stability claim at a concrete finished run. -/
theorem c2_final_answer_stability_witness :
    ((⟨.finished, budgetDemoState⟩ : Config).phase = .finished ∧
      stepM (convAgent (fun _ => Option.none) []) demoFinOracle
        ⟨.finished, budgetDemoState⟩ = .ok ⟨.finished, budgetDemoState⟩) ∧
    reflectNode demoFinOracle budgetDemoState = budgetDemoState ∧
    postReflectionRouter budgetDemoState = .finish :=
  ⟨c2_final_answer_stability.1 (fun _ => Option.none) [] demoFinOracle "q"
      ⟨.finished, budgetDemoState⟩ (Reaches.next Reaches.init rfl)
      ⟨"hi", "hi", rfl⟩,
    (c2_final_answer_stability.2 (fun _ => Option.none) [] demoFinOracle
        budgetDemoState "hi" "hi" rfl).1,
    (c2_final_answer_stability.2 (fun _ => Option.none) [] demoFinOracle
        budgetDemoState "hi" "hi" rfl).2.1⟩

/-- C8: Acting on a pending action whose tool name is not in the loop's
registry raises no exception: the synthetic `Tool '<name>' not found`
observation is appended paired with the action, the machine continues to
the next reasoning phase, and the step counter is incremented by exactly 1
— the same increment as a successful tool invocation. -/
theorem c8_unknown_tool_recovery :
    (∀ jl ns O s a, s.outcome = .act a →
        a.tool ∉ (convAgent jl ns).toolNames →
        actNode (convAgent jl ns) O s =
          .ok { s with
                  counter := s.counter + 1
                  steps := s.steps ++
                    [(a, (convAgent jl ns).notFound a.tool)] } ∧
        stepM (convAgent jl ns) O ⟨.acting, s⟩ =
          .ok ⟨.reasoning, { s with
                  counter := s.counter + 1
                  steps := s.steps ++
                    [(a, (convAgent jl ns).notFound a.tool)] }⟩) ∧
    (∀ jl ns O s a, s.outcome = .act a →
        a.tool ∉ (extAgent jl ns).toolNames →
        actNode (extAgent jl ns) O s =
          .ok { s with
                  counter := s.counter + 1
                  steps := s.steps ++
                    [(a, "Tool '" ++ a.tool ++ "' not found in extraction tools")] } ∧
        stepM (extAgent jl ns) O ⟨.acting, s⟩ =
          .ok ⟨.reasoning, { s with
                  counter := s.counter + 1
                  steps := s.steps ++
                    [(a, "Tool '" ++ a.tool ++ "' not found in extraction tools")] }⟩) ∧
    (∀ jl ns O s a fi, s.outcome = .act a →
        a.tool ∈ (convAgent jl ns).toolNames →
        (convAgent jl ns).parseInput a.tool a.toolInput = .ok fi →
        actNode (convAgent jl ns) O s =
          .ok { s with
                  counter := s.counter + 1
                  steps := s.steps ++ [(a, O.tool a.tool fi)] }) ∧
    (∀ jl ns n, (convAgent jl ns).notFound n =
        "Tool '" ++ n ++ "' not found in conversation tools. Available tools: "
          ++ pyListRepr ((convAgent jl ns).toolNames)) := by
  refine ⟨?_, ?_, ?_, fun jl ns n => rfl⟩
  · intro jl ns O s a ha hni
    have h1 : actNode (convAgent jl ns) O s =
        .ok { s with
                counter := s.counter + 1
                steps := s.steps ++
                  [(a, (convAgent jl ns).notFound a.tool)] } := by
      unfold actNode
      rw [ha]
      simp only
      rw [if_neg hni]
    refine ⟨h1, ?_⟩
    simp only [stepM, h1]
  · intro jl ns O s a ha hni
    have h1 : actNode (extAgent jl ns) O s =
        .ok { s with
                counter := s.counter + 1
                steps := s.steps ++
                  [(a, "Tool '" ++ a.tool ++ "' not found in extraction tools")] } := by
      unfold actNode
      rw [ha]
      simp only
      rw [if_neg hni]
      rfl
    refine ⟨h1, ?_⟩
    simp only [stepM, h1]
  · intro jl ns O s a fi ha hin hok
    unfold actNode
    rw [ha]
    simp only
    rw [if_pos hin, hok]

/-- C8 witness: acting on a concrete unknown tool. -/
theorem c8_unknown_tool_recovery_witness :
    (actNode (convAgent (fun _ => Option.none) []) demoActOracle demoActState =
        .ok demoActedState ∧
      stepM (convAgent (fun _ => Option.none) []) demoActOracle
        ⟨.acting, demoActState⟩ = .ok ⟨.reasoning, demoActedState⟩) ∧
    (convAgent (fun _ => Option.none) []).notFound "mystery_tool" =
      "Tool 'mystery_tool' not found in conversation tools. Available tools: []" :=
  ⟨c8_unknown_tool_recovery.1 (fun _ => Option.none) [] demoActOracle
      demoActState demoAction rfl (by decide),
    by decide⟩

/-- C9: In every run of either loop, at the start of every reasoning phase
the step counter equals the length of the intermediate-steps history, and
every completed `Act` transition — unknown-tool branch included — appends
exactly one (action, observation) pair and increments the counter by
exactly one, re-establishing the equality. -/
theorem c9_counter_equals_history :
    (∀ jl ns O q c, Reaches (convAgent jl ns) O q c → c.phase = .reasoning →
        c.st.counter = c.st.steps.length) ∧
    (∀ jl ns O q c, Reaches (extAgent jl ns) O q c → c.phase = .reasoning →
        c.st.counter = c.st.steps.length) ∧
    (∀ jl ns O q c c', Reaches (convAgent jl ns) O q c → c.phase = .acting →
        stepM (convAgent jl ns) O c = .ok c' →
        c'.phase = .reasoning ∧ c'.st.counter = c.st.counter + 1 ∧
        c'.st.steps.length = c.st.steps.length + 1 ∧
        c'.st.counter = c'.st.steps.length) ∧
    (∀ jl ns O q c c', Reaches (extAgent jl ns) O q c → c.phase = .acting →
        stepM (extAgent jl ns) O c = .ok c' →
        c'.phase = .reasoning ∧ c'.st.counter = c.st.counter + 1 ∧
        c'.st.steps.length = c.st.steps.length + 1 ∧
        c'.st.counter = c'.st.steps.length) := by
  have key : ∀ (impl : AgentImpl) O q c c', Reaches impl O q c →
      c.phase = .acting → stepM impl O c = .ok c' →
      c'.phase = .reasoning ∧ c'.st.counter = c.st.counter + 1 ∧
      c'.st.steps.length = c.st.steps.length + 1 ∧
      c'.st.counter = c'.st.steps.length := by
    intro impl O q c c' h hph hstep
    obtain ⟨_, hlen, _, hmid, _⟩ := reaches_inv h
    rcases c with ⟨ph, s⟩
    dsimp only at hph hlen hmid ⊢
    subst hph
    obtain ⟨_, ha⟩ := hmid (Or.inr rfl)
    obtain ⟨h1, h2, h3⟩ := act_step_effect ha hstep
    exact ⟨h1, h2, h3, by omega⟩
  exact ⟨fun jl ns O q c h _ => (reaches_inv h).2.1,
    fun jl ns O q c h _ => (reaches_inv h).2.1,
    fun jl ns => key (convAgent jl ns),
    fun jl ns => key (extAgent jl ns)⟩

/-- C9 witness: a concrete conversation run reaching `Act` through
`reason` and `reflect`, acting on an unknown tool. -/
theorem c9_counter_equals_history_witness :
    (⟨.reasoning, demoActedState⟩ : Config).phase = .reasoning ∧
    demoActedState.counter = demoActState.counter + 1 ∧
    demoActedState.steps.length = demoActState.steps.length + 1 ∧
    demoActedState.counter = demoActedState.steps.length :=
  c9_counter_equals_history.2.2.1 (fun _ => Option.none) [] demoActOracle "q"
    ⟨.acting, demoActState⟩ ⟨.reasoning, demoActedState⟩
    (Reaches.next (Reaches.next Reaches.init rfl) rfl) rfl rfl

/-- C6: The reflector is a no-op when `step_counter < 2` or the history has
fewer than 2 entries, and never mutates an outcome that is already a
`FinalAnswer`; when the last two actions' tool names are identical it
records a `LoopDetection` reflection; when additionally `step_counter > 3`
and all tool names in the last-3 window are identical, it replaces the
pending outcome with a `FinalAnswer` synthesized from the accumulated
observations, each truncated to 1000 characters — and that is exactly the
one path by which `Reflecting` routes straight to `Finished`. -/
theorem c6_reflector :
    (∀ O s, (s.counter < 2 ∨ s.steps.length < 2) → reflectNode O s = s) ∧
    (∀ O s o l, s.outcome = .finish o l → reflectNode O s = s) ∧
    (∀ O s a, s.outcome = .act a → 2 ≤ s.counter → 2 ≤ s.steps.length →
        setSizeOne (lastN 2 (toolSequence s.steps)) = true →
        ∃ rest, (reflectNode O s).reflections =
          s.reflections ++ ⟨s.counter, .loopDetection,
            O.loopCritique (toolSequence s.steps) (lastN 2 s.steps)⟩ :: rest) ∧
    (∀ O s a, s.outcome = .act a → 2 ≤ s.counter → 2 ≤ s.steps.length →
        3 < s.counter → setSizeOne (toolSequence s.steps) = true →
        (reflectNode O s).outcome =
          .finish (O.synth s.input (synthEvidence s.steps)) synthLog) ∧
    (∀ O s a, s.outcome = .act a →
        (postReflectionRouter (reflectNode O s) = .finish ↔
          2 ≤ s.counter ∧ 2 ≤ s.steps.length ∧
          setSizeOne (lastN 2 (toolSequence s.steps)) = true ∧
          3 < s.counter ∧ setSizeOne (toolSequence s.steps) = true)) := by
  refine ⟨?_, ?_, ?_, ?_, ?_⟩
  · intro O s h
    rcases s with ⟨inp, out, steps, cnt, rf⟩
    dsimp only at h
    cases out with
    | finish o l => rfl
    | unset => simp only [reflectNode]; rw [if_pos h]
    | act a => simp only [reflectNode]; rw [if_pos h]
  · intro O s o l ho
    rcases s with ⟨inp, out, steps, cnt, rf⟩
    dsimp only at ho
    subst ho
    rfl
  · intro O s a ha hc2 hl2 hlast
    exact reflectNode_reflections_loop O s a ha (by omega)
      (by rw [toolSequence_length]; omega) hlast
  · intro O s a ha hc2 hl2 hc3 hall
    have hlen : 2 ≤ (toolSequence s.steps).length := by
      rw [toolSequence_length]; omega
    exact ((reflectNode_outcome_act O s a ha).2 (by omega)).1
      ⟨hlen, setSizeOne_lastN_two hall hlen, hc3, hall⟩
  · intro O s a ha
    obtain ⟨hno, hrest⟩ := reflectNode_outcome_act O s a ha
    constructor
    · intro hr
      by_cases h1 : s.counter < 2 ∨ s.steps.length < 2
      · rw [hno h1] at hr
        unfold postReflectionRouter at hr
        rw [ha] at hr
        cases hr
      · obtain ⟨hsyn, hact⟩ := hrest h1
        by_cases hC : 2 ≤ (toolSequence s.steps).length ∧
            setSizeOne (lastN 2 (toolSequence s.steps)) = true ∧
            3 < s.counter ∧ setSizeOne (toolSequence s.steps) = true
        · exact ⟨by omega, by omega, hC.2.1, hC.2.2.1, hC.2.2.2⟩
        · exfalso
          unfold postReflectionRouter at hr
          rw [hact hC] at hr
          cases hr
    · rintro ⟨hc2, hl2, hlast, hc3, hall⟩
      have hlen : 2 ≤ (toolSequence s.steps).length := by
        rw [toolSequence_length]; omega
      have hout := (hrest (by omega)).1 ⟨hlen, hlast, hc3, hall⟩
      unfold postReflectionRouter
      rw [hout]

/-- C6 witness: the reflector claim at a concrete four-fold repetition. -/
theorem c6_reflector_witness :
    (∃ rest, (reflectNode demoFinOracle loopState).reflections =
      loopState.reflections ++ ⟨4, .loopDetection,
        demoFinOracle.loopCritique (toolSequence loopState.steps)
          (lastN 2 loopState.steps)⟩ :: rest) ∧
    (reflectNode demoFinOracle loopState).outcome =
      .finish (demoFinOracle.synth loopState.input
        (synthEvidence loopState.steps)) synthLog ∧
    (postReflectionRouter (reflectNode demoFinOracle loopState) = .finish ↔
      2 ≤ loopState.counter ∧ 2 ≤ loopState.steps.length ∧
      setSizeOne (lastN 2 (toolSequence loopState.steps)) = true ∧
      3 < loopState.counter ∧
      setSizeOne (toolSequence loopState.steps) = true) ∧
    reflectNode demoFinOracle (initState "q") = initState "q" :=
  ⟨c6_reflector.2.2.1 demoFinOracle loopState loopAction rfl (by decide)
      (by decide) (by decide),
    c6_reflector.2.2.2.1 demoFinOracle loopState loopAction rfl (by decide)
      (by decide) (by decide) (by decide),
    c6_reflector.2.2.2.2 demoFinOracle loopState loopAction rfl,
    c6_reflector.1 demoFinOracle (initState "q") (Or.inl (by decide))⟩

end Fixter
